import Mathlib

/-!
Shallow embedding of `src/python/import_external_files_OF.py`, a linear batch
job that

  1. iterates over the entries of a source directory, and for each entry whose
     name ends in `".csv"`: reads it as an untyped (all-text) data frame,
     renames each of the three ID-alias column labels (`"Unnamed: 0"`,
     `"ValueID"`, `"ID"`) to `"Column_0"`, appends the rows to the staging
     table `OF.External_file_staging`, and moves the file into the `loaded`
     archive directory;

  2. afterwards runs, for each of five target columns, one SQL statement
     `UPDATE ... SET col = NULL WHERE col IN ('Inf','-Inf','NA','Null','NULL','Nan','NaN','')`.

Table cells are `Option String` (`none` is SQL NULL, `some s` a text value).
A table row is an association list from column name to cell, mirroring a SQL
row over named columns; `pandas` data-frame headers are lists of labels in
which duplicates may coexist, so a CSV header is a plain `List String`.
External failures (unreadable file, failed append, failed move, failed update
statement) are modelled by an oracle saying which calls raise; the Python
script has no `try`/`except`, so the run functions stop at the first raised
error and return the state reached at that point.
-/

/-- A staging-table cell: `none` is SQL NULL, `some s` a text value
(everything is loaded with `dtype=str`, so non-NULL cells are strings). -/
abbrev Cell := Option String

/-- A staging-table row: an association list from column name to cell. -/
abbrev Row := List (String × Cell)

/-- The five target columns of the cleanup loop
(`fields = ['numerator', 'denominator', 'IndicatorValue', 'lowerCI95', 'upperCI95']`). -/
def fields : List String :=
  ["numerator", "denominator", "IndicatorValue", "lowerCI95", "upperCI95"]

/-- The fixed sentinel set of the `WHERE col IN (...)` clause. -/
def sentinels : List String :=
  ["Inf", "-Inf", "NA", "Null", "NULL", "Nan", "NaN", ""]

/-- Effect of `SET col = NULL WHERE col IN (sentinels)` on one cell of the
targeted column: a NULL cell is left NULL (SQL `NULL IN (...)` is not true),
a sentinel string becomes NULL, any other string is untouched. -/
def cleanCell (c : Cell) : Cell :=
  match c with
  | none => none
  | some s => if s ∈ sentinels then none else some s

/-- One `UPDATE [..] SET col = NULL WHERE col IN (sentinels)` statement applied
to the whole table: every cell of column `col` is cleaned, all other columns
are untouched. -/
def cleanColumn (col : String) (t : List Row) : List Row :=
  t.map (fun r => r.map (fun kv => if kv.1 = col then (kv.1, cleanCell kv.2) else kv))

/-- The cleanup loop `for i in fields: UPDATE ...`, run over an arbitrary
column list: one update statement per column, in order. -/
def cleanCols (cs : List String) (t : List Row) : List Row :=
  cs.foldl (fun t c => cleanColumn c t) t

/-- Pointwise description of what the cleanup loop does to a single
(column, cell) entry: the cell is cleaned iff its column is targeted. -/
def cleanEntry (cs : List String) (kv : String × Cell) : String × Cell :=
  if kv.1 ∈ cs then (kv.1, cleanCell kv.2) else kv

/-- Lookup of a column's cell in a row (`none` when the row has no such
column; the outer option is presence, the inner `Cell` is the value). -/
def getCol (r : Row) (k : String) : Option Cell :=
  (r.find? (fun kv => kv.1 == k)).map (fun kv => kv.2)

/-- One `df.rename(columns={alias: canon})` call: every column label equal to
the alias is relabelled to the canonical name; nothing is merged or dropped. -/
def renameOne (al canon : String) (h : List String) : List String :=
  h.map (fun c => if c = al then canon else c)

/-- The three sequential renames
`{'Unnamed: 0': 'Column_0'}`, `{'ValueID': 'Column_0'}`, `{'ID': 'Column_0'}`. -/
def renameHeader (h : List String) : List String :=
  renameOne "ID" "Column_0" (renameOne "ValueID" "Column_0" (renameOne "Unnamed: 0" "Column_0" h))

/-- A row of the data frame turned into a staging-table row for
`df.to_sql(..., if_exists="append", index=False)`: the (renamed) header zipped
with the row's cells. A missing CSV cell is already a `none` (pandas reads it
as NaN even under `dtype=str`, and NaN is written as NULL). -/
def rowOf (hd : List String) (cells : List Cell) : Row :=
  hd.zip cells

/-- A directory entry: a name, and (when it is a CSV file) a header row and
data rows as read by `pd.read_csv(file_path, dtype=str)`. -/
structure CsvFile where
  name : String
  header : List String
  rows : List (List Cell)
deriving Repr, DecidableEq

/-- Effects the script performs, in order: a successful `df.to_sql` append, a
successful `shutil.move`, a successful `UPDATE` statement. -/
inductive Event where
  | loaded (name : String)
  | moved (name : String)
  | cleaned (col : String)
deriving Repr, DecidableEq

/-- The observable state of the job: the source directory, the `loaded`
archive directory, the staging table, and the trace of performed effects. -/
structure State where
  source : List CsvFile
  archive : List CsvFile
  table : List Row
  trace : List Event
deriving Repr, DecidableEq

/-- The uncaught Python exceptions of the script. -/
inductive Err where
  | loadError (name : String)
  | moveError (name : String)
  | updateError (col : String)
deriving Repr, DecidableEq

/-- Python's `str.endswith`: the suffix check `filename.endswith(".csv")`,
phrased over the strings' character lists. -/
def pyEndsWith (s suffix : String) : Bool :=
  suffix.data.isSuffixOf s.data

/-- Which external calls raise: `loadFails n` — `pd.read_csv`/`df.to_sql` on
file `n` raises; `moveFails n` — `shutil.move` of file `n` raises;
`updateFails c` — the `UPDATE` statement for column `c` raises. -/
structure Oracle where
  loadFails : String → Bool
  moveFails : String → Bool
  updateFails : String → Bool

/-- The body of `for filename in os.listdir(folder_path):` for one entry:
skip a non-`.csv` name; otherwise read + rename + append (raising
`loadError` if the oracle says so), then move to the archive (raising
`moveError`), removing the file from the source directory. The returned
state is the one reached when the loop body ends or the exception escapes. -/
def processFile (o : Oracle) (f : CsvFile) (st : State) : State × Option Err :=
  if pyEndsWith f.name ".csv" then
    if o.loadFails f.name then (st, some (Err.loadError f.name))
    else
      let st1 : State :=
        { st with table := st.table ++ f.rows.map (rowOf (renameHeader f.header)),
                  trace := st.trace ++ [Event.loaded f.name] }
      if o.moveFails f.name then (st1, some (Err.moveError f.name))
      else
        ({ st1 with source := st1.source.filter (fun g => g.name ≠ f.name),
                    archive := st1.archive ++ [f],
                    trace := st1.trace ++ [Event.moved f.name] }, none)
  else (st, none)

/-- The file loop over the `os.listdir` snapshot: process entries in order,
stopping at the first uncaught exception. -/
def runFiles (o : Oracle) : List CsvFile → State → State × Option Err
  | [], st => (st, none)
  | f :: fs, st =>
    match processFile o f st with
    | (st1, none) => runFiles o fs st1
    | (st1, some e) => (st1, some e)

/-- The cleanup loop `for i in fields:` over an arbitrary column list: execute
one `UPDATE` statement per column, stopping at the first failed statement. -/
def runCleanup (o : Oracle) : List String → State → State × Option Err
  | [], st => (st, none)
  | c :: cs, st =>
    if o.updateFails c then (st, some (Err.updateError c))
    else runCleanup o cs
      { st with table := cleanColumn c st.table,
                trace := st.trace ++ [Event.cleaned c] }

/-- The whole script: the file loop over the directory listing, then — only
when no exception escaped the file loop — the cleanup loop over `fields`. -/
def runAll (o : Oracle) (st : State) : State × Option Err :=
  match runFiles o st.source st with
  | (st1, none) => runCleanup o fields st1
  | (st1, some e) => (st1, some e)

/-! ## Cleanup lemmas -/

theorem cleanCell_idem (c : Cell) : cleanCell (cleanCell c) = cleanCell c := by
  cases c with
  | none => rfl
  | some s =>
    simp only [cleanCell]
    by_cases hs : s ∈ sentinels
    · simp [hs]
    · simp [hs]

theorem cleanEntry_idem (cs : List String) (kv : String × Cell) :
    cleanEntry cs (cleanEntry cs kv) = cleanEntry cs kv := by
  simp only [cleanEntry]
  by_cases h : kv.1 ∈ cs
  · simp [h, cleanCell_idem]
  · simp [h]

theorem cleanEntry_nil : cleanEntry [] = id := by
  funext kv
  simp [cleanEntry]

theorem cleanEntry_step (c : String) (cs : List String) (kv : String × Cell) :
    cleanEntry cs (if kv.1 = c then (kv.1, cleanCell kv.2) else kv) =
      cleanEntry (c :: cs) kv := by
  by_cases hc : kv.1 = c
  · simp only [hc, if_pos rfl, cleanEntry]
    by_cases h : c ∈ cs
    · simp [h, cleanCell_idem, hc]
    · simp [h, hc]
  · rw [if_neg hc]
    simp only [cleanEntry, List.mem_cons, hc, false_or]

theorem cleanCols_eq (cs : List String) (t : List Row) :
    cleanCols cs t = t.map (List.map (cleanEntry cs)) := by
  induction cs generalizing t with
  | nil =>
    simp [cleanCols, cleanEntry_nil]
  | cons c cs ih =>
    show cleanCols cs (cleanColumn c t) = _
    rw [ih, cleanColumn, List.map_map]
    congr 1
    funext r
    simp only [Function.comp, List.map_map]
    congr 1
    funext kv
    exact cleanEntry_step c cs kv

theorem getCol_map_cleanEntry (cs : List String) (r : Row) (k : String) :
    getCol (r.map (cleanEntry cs)) k =
      (getCol r k).map (fun v => if k ∈ cs then cleanCell v else v) := by
  simp only [getCol]
  induction r with
  | nil => rfl
  | cons kv r ih =>
    have hfst : (cleanEntry cs kv).1 = kv.1 := by
      simp only [cleanEntry]
      by_cases h : kv.1 ∈ cs <;> simp [h]
    cases hpa : (kv.1 == k) with
    | true =>
      have hk : kv.1 = k := by simpa using hpa
      simp only [List.map_cons, List.find?_cons, hfst, hpa, Option.map_some]
      subst hk
      simp only [cleanEntry]
      by_cases h : kv.1 ∈ cs
      · simp [h]
      · simp [h]
    | false =>
      simp only [List.map_cons, List.find?_cons, hfst, hpa]
      exact ih

/-- C5: The Sentinel Cleaner is idempotent: for every staging-table state,
running the cleanup pass (one `UPDATE` per column of `fields`) twice in
succession yields exactly the same table state as running it once. -/
theorem C5_cleaner_idempotent (t : List Row) :
    cleanCols fields (cleanCols fields t) = cleanCols fields t := by
  rw [cleanCols_eq, cleanCols_eq, List.map_map]
  congr 1
  funext r
  simp only [Function.comp, List.map_map]
  congr 1
  funext kv
  exact cleanEntry_idem fields kv

/-- C1: for every row of the staging table, every target column of `fields`
and every sentinel string, after the cleanup pass the row at the same index is
the entrywise-cleaned row; a cell of a target column holding exactly a
sentinel string is NULL afterwards, and a cell holding a non-sentinel string
is unchanged. -/
theorem C1_sentinel_cleanup (t : List Row) (i : Nat) (r : Row)
    (hr : t[i]? = some r) (col : String) (hcol : col ∈ fields)
    (s : String) (hs : s ∈ sentinels) (w : String) (hw : w ∉ sentinels) :
    (cleanCols fields t)[i]? = some (r.map (cleanEntry fields)) ∧
    (getCol r col = some (some s) →
      getCol (r.map (cleanEntry fields)) col = some none) ∧
    (getCol r col = some (some w) →
      getCol (r.map (cleanEntry fields)) col = some (some w)) := by
  refine ⟨?_, ?_, ?_⟩
  · rw [cleanCols_eq, List.getElem?_map, hr]
    rfl
  · intro h
    rw [getCol_map_cleanEntry, h]
    simp [hcol, cleanCell, hs]
  · intro h
    rw [getCol_map_cleanEntry, h]
    simp [hcol, cleanCell, hw]

/-- Witness for C1 at a concrete table: the `numerator` cell `"NA"` becomes
NULL and the `numerator` cell `"0.5"` survives. -/
theorem C1_sentinel_cleanup_witness :
    ([[("numerator", some "NA"), ("denominator", some "0.5")]] :
        List Row)[0]? = some [("numerator", some "NA"), ("denominator", some "0.5")] ∧
    ((cleanCols fields [[("numerator", some "NA"), ("denominator", some "0.5")]])[0]? =
        some ([("numerator", some "NA"), ("denominator", some "0.5")].map (cleanEntry fields)) ∧
      (getCol [("numerator", some "NA"), ("denominator", some "0.5")] "numerator" = some (some "NA") →
        getCol ([("numerator", some "NA"), ("denominator", some "0.5")].map (cleanEntry fields)) "numerator" = some none) ∧
      (getCol [("numerator", some "NA"), ("denominator", some "0.5")] "numerator" = some (some "0.5") →
        getCol ([("numerator", some "NA"), ("denominator", some "0.5")].map (cleanEntry fields)) "numerator" = some (some "0.5"))) :=
  ⟨by decide,
    C1_sentinel_cleanup [[("numerator", some "NA"), ("denominator", some "0.5")]] 0
      [("numerator", some "NA"), ("denominator", some "0.5")] (by decide) "numerator"
      (by decide) "NA" (by decide) "0.5" (by decide)⟩

/-! ## Rename lemmas -/

theorem renameHeader_eq (h : List String) :
    renameHeader h = h.map (fun c =>
      if c = "Unnamed: 0" ∨ c = "ValueID" ∨ c = "ID" then "Column_0" else c) := by
  simp only [renameHeader, renameOne, List.map_map]
  congr 1
  funext c
  by_cases h0 : c = "Unnamed: 0"
  · simp [h0, Function.comp]
  · by_cases h1 : c = "ValueID"
    · simp [h1, Function.comp]
    · by_cases h2 : c = "ID"
      · simp [h2, Function.comp, h0, h1]
      · simp [h0, h1, h2, Function.comp]

/-- A sample all-success oracle: no external call raises. -/
def oQuiet : Oracle := ⟨fun _ => false, fun _ => false, fun _ => false⟩

/-- A sample initial state: empty directories, empty table, empty trace. -/
def st0ex : State := ⟨[], [], [], []⟩

/-- A sample CSV file carrying the `ID` alias column. -/
def fIdCsv : CsvFile := ⟨"a.csv", ["ID", "val"], [[some "1", some "2"]]⟩

/-- C3: a successfully loaded file's rows are appended to the staging table
with the header renamed so that each ID-alias column name becomes
`"Column_0"` and every other column name passes through unchanged. -/
theorem C3_load_renames_aliases (o : Oracle) (st : State) (f : CsvFile)
    (hcsv : pyEndsWith f.name ".csv" = true) (hload : o.loadFails f.name = false) :
    (processFile o f st).1.table =
      st.table ++ f.rows.map (rowOf (renameHeader f.header)) ∧
    renameHeader f.header = f.header.map (fun c =>
      if c = "Unnamed: 0" ∨ c = "ValueID" ∨ c = "ID" then "Column_0" else c) := by
  refine ⟨?_, renameHeader_eq f.header⟩
  by_cases hm : o.moveFails f.name <;> simp [processFile, hcsv, hload, hm]

/-- Witness for C3: loading the sample file `a.csv` appends its renamed rows. -/
theorem C3_load_renames_aliases_witness :
    (processFile oQuiet fIdCsv st0ex).1.table =
      st0ex.table ++ fIdCsv.rows.map (rowOf (renameHeader fIdCsv.header)) ∧
    renameHeader fIdCsv.header = fIdCsv.header.map (fun c =>
      if c = "Unnamed: 0" ∨ c = "ValueID" ∨ c = "ID" then "Column_0" else c) :=
  C3_load_renames_aliases oQuiet st0ex fIdCsv (by decide) rfl

/-- C4 fails as stated: a file containing both the `ValueID` and the `ID`
alias does not end up with a single `Column_0` column holding the values of
the last-renamed alias; both columns are relabelled `Column_0` and both keep
their own values, so the record has two `Column_0` columns, and the earlier
alias's value `"v1"` is not overwritten. -/
theorem C4_counterexample_duplicate_columns :
    renameHeader ["ValueID", "ID"] = ["Column_0", "Column_0"] ∧
    rowOf (renameHeader ["ValueID", "ID"]) [some "v1", some "v2"] =
      [("Column_0", some "v1"), ("Column_0", some "v2")] ∧
    ¬ ((rowOf (renameHeader ["ValueID", "ID"]) [some "v1", some "v2"]).map
        Prod.fst).count "Column_0" = 1 := by
  decide

/-- C4 (amended): when a loaded file contains more than one ID-alias column,
each alias occurrence is independently relabelled `"Column_0"` — the record
keeps one `Column_0` column per alias occurrence, every cell value staying in
place; no rename overwrites the result of an earlier one. -/
theorem C4_amended_all_aliases_renamed (hd : List String) (cells : List Cell)
    (hlen : cells.length = hd.length) :
    (rowOf (renameHeader hd) cells).map Prod.fst = hd.map (fun c =>
      if c = "Unnamed: 0" ∨ c = "ValueID" ∨ c = "ID" then "Column_0" else c) ∧
    (rowOf (renameHeader hd) cells).map Prod.snd = cells := by
  have hlen2 : (renameHeader hd).length = hd.length := by
    simp [renameHeader_eq]
  constructor
  · rw [rowOf, List.map_fst_zip, renameHeader_eq]
    omega
  · rw [rowOf, List.map_snd_zip]
    omega

/-- Witness for C4 (amended) at the two-alias file of the counterexample. -/
theorem C4_amended_all_aliases_renamed_witness :
    (rowOf (renameHeader ["ValueID", "ID"]) [some "v1", some "v2"]).map Prod.fst =
      ["ValueID", "ID"].map (fun c =>
        if c = "Unnamed: 0" ∨ c = "ValueID" ∨ c = "ID" then "Column_0" else c) ∧
    (rowOf (renameHeader ["ValueID", "ID"]) [some "v1", some "v2"]).map Prod.snd =
      [some "v1", some "v2"] :=
  C4_amended_all_aliases_renamed ["ValueID", "ID"] [some "v1", some "v2"] rfl

/-! ## Case lemmas for one loop iteration -/

theorem processFile_skip (o : Oracle) (f : CsvFile) (st : State)
    (h : pyEndsWith f.name ".csv" = false) :
    processFile o f st = (st, none) := by
  simp [processFile, h]

theorem processFile_loadFail (o : Oracle) (f : CsvFile) (st : State)
    (hcsv : pyEndsWith f.name ".csv" = true) (h : o.loadFails f.name = true) :
    processFile o f st = (st, some (Err.loadError f.name)) := by
  simp [processFile, hcsv, h]

theorem processFile_moveFail (o : Oracle) (f : CsvFile) (st : State)
    (hcsv : pyEndsWith f.name ".csv" = true) (hl : o.loadFails f.name = false)
    (hm : o.moveFails f.name = true) :
    processFile o f st =
      ({ st with table := st.table ++ f.rows.map (rowOf (renameHeader f.header)),
                 trace := st.trace ++ [Event.loaded f.name] },
        some (Err.moveError f.name)) := by
  simp [processFile, hcsv, hl, hm]

theorem processFile_ok (o : Oracle) (f : CsvFile) (st : State)
    (hcsv : pyEndsWith f.name ".csv" = true) (hl : o.loadFails f.name = false)
    (hm : o.moveFails f.name = false) :
    processFile o f st =
      ({ source := st.source.filter (fun g => g.name ≠ f.name),
         archive := st.archive ++ [f],
         table := st.table ++ f.rows.map (rowOf (renameHeader f.header)),
         trace := st.trace ++ [Event.loaded f.name, Event.moved f.name] }, none) := by
  simp [processFile, hcsv, hl, hm]

/-! ## Structure of the file loop -/

theorem runFiles_append (o : Oracle) (fs1 fs2 : List CsvFile) (st : State) :
    runFiles o (fs1 ++ fs2) st =
      match runFiles o fs1 st with
      | (st1, none) => runFiles o fs2 st1
      | (st1, some e) => (st1, some e) := by
  induction fs1 generalizing st with
  | nil => rfl
  | cons f fs1 ih =>
    show runFiles o (f :: (fs1 ++ fs2)) st = _
    rw [runFiles]
    cases hp : processFile o f st with
    | mk st1 err =>
      cases err with
      | none => simp only [runFiles, hp, ih]
      | some e => simp only [runFiles, hp]

theorem runFiles_ok (o : Oracle) (fs : List CsvFile) (st : State)
    (h : ∀ g ∈ fs, o.loadFails g.name = false ∧ o.moveFails g.name = false) :
    (runFiles o fs st).2 = none := by
  induction fs generalizing st with
  | nil => rfl
  | cons f fs ih =>
    by_cases hcsv : pyEndsWith f.name ".csv" = true
    · rw [runFiles, processFile_ok o f st hcsv (h f (by simp) |>.1) (h f (by simp) |>.2)]
      exact ih _ (fun g hg => h g (by simp [hg]))
    · rw [runFiles, processFile_skip o f st (by simpa using hcsv)]
      exact ih _ (fun g hg => h g (by simp [hg]))

theorem runFiles_skip_all (o : Oracle) (fs : List CsvFile) (st : State)
    (h : ∀ f ∈ fs, pyEndsWith f.name ".csv" = false) :
    runFiles o fs st = (st, none) := by
  induction fs with
  | nil => rfl
  | cons f fs ih =>
    rw [runFiles, processFile_skip o f st (h f (by simp))]
    exact ih (fun g hg => h g (by simp [hg]))

/-! ## Structure of the cleanup loop -/

theorem runCleanup_ok (o : Oracle) (cs : List String) (st : State)
    (h : ∀ c ∈ cs, o.updateFails c = false) :
    runCleanup o cs st =
      ({ st with table := cleanCols cs st.table,
                 trace := st.trace ++ cs.map Event.cleaned }, none) := by
  induction cs generalizing st with
  | nil => simp [runCleanup, cleanCols]
  | cons c cs ih =>
    rw [runCleanup]
    rw [if_neg (by simp [h c (by simp)])]
    rw [ih _ (fun c1 hc1 => h c1 (by simp [hc1]))]
    simp [cleanCols]

theorem runCleanup_failHead (o : Oracle) (c : String) (cs : List String) (st : State)
    (h : o.updateFails c = true) :
    runCleanup o (c :: cs) st = (st, some (Err.updateError c)) := by
  rw [runCleanup, if_pos (by simp [h])]

theorem runCleanup_frame (o : Oracle) (cs : List String) (st : State) :
    (runCleanup o cs st).1.source = st.source ∧
    (runCleanup o cs st).1.archive = st.archive ∧
    ∃ tr, (runCleanup o cs st).1.trace = st.trace ++ tr ∧
      ∀ ev ∈ tr, ∃ c ∈ cs, ev = Event.cleaned c := by
  induction cs generalizing st with
  | nil => exact ⟨rfl, rfl, [], by simp [runCleanup], by simp⟩
  | cons c cs ih =>
    rw [runCleanup]
    by_cases h : o.updateFails c
    · rw [if_pos (by simp [h])]
      exact ⟨rfl, rfl, [], by simp, by simp⟩
    · rw [if_neg (by simp [h])]
      obtain ⟨hs, ha, tr, htr, hev⟩ := ih
        { st with table := cleanColumn c st.table,
                  trace := st.trace ++ [Event.cleaned c] }
      refine ⟨hs, ha, Event.cleaned c :: tr, by simpa using htr, ?_⟩
      intro ev hev1
      rcases List.mem_cons.mp hev1 with h1 | h1
      · exact ⟨c, by simp, h1⟩
      · obtain ⟨c1, hc1, he⟩ := hev ev h1
        exact ⟨c1, by simp [hc1], he⟩

/-- Exhaustive case split for one loop iteration: skip, load failure, move
failure, or full success, each with the conditions that select it. -/
theorem processFile_split (o : Oracle) (f : CsvFile) (st : State) :
    (pyEndsWith f.name ".csv" = false ∧ processFile o f st = (st, none)) ∨
    (pyEndsWith f.name ".csv" = true ∧ o.loadFails f.name = true ∧
      processFile o f st = (st, some (Err.loadError f.name))) ∨
    (pyEndsWith f.name ".csv" = true ∧ o.loadFails f.name = false ∧
      o.moveFails f.name = true ∧
      processFile o f st =
        ({ st with table := st.table ++ f.rows.map (rowOf (renameHeader f.header)),
                   trace := st.trace ++ [Event.loaded f.name] },
          some (Err.moveError f.name))) ∨
    (pyEndsWith f.name ".csv" = true ∧ o.loadFails f.name = false ∧
      o.moveFails f.name = false ∧
      processFile o f st =
        ({ source := st.source.filter (fun g => g.name ≠ f.name),
           archive := st.archive ++ [f],
           table := st.table ++ f.rows.map (rowOf (renameHeader f.header)),
           trace := st.trace ++ [Event.loaded f.name, Event.moved f.name] }, none)) := by
  cases hc : pyEndsWith f.name ".csv" with
  | false => exact Or.inl ⟨rfl, processFile_skip o f st hc⟩
  | true =>
    cases hl : o.loadFails f.name with
    | true => exact Or.inr (Or.inl ⟨rfl, rfl, processFile_loadFail o f st hc hl⟩)
    | false =>
      cases hm : o.moveFails f.name with
      | true => exact Or.inr (Or.inr (Or.inl ⟨rfl, rfl, rfl, processFile_moveFail o f st hc hl hm⟩))
      | false => exact Or.inr (Or.inr (Or.inr ⟨rfl, rfl, rfl, processFile_ok o f st hc hl hm⟩))

/-! ## Source-directory lemmas -/

theorem processFile_source_sub (o : Oracle) (f : CsvFile) (st : State) :
    ∀ g ∈ (processFile o f st).1.source, g ∈ st.source := by
  intro g hg
  rcases processFile_split o f st with ⟨_, h⟩ | ⟨_, _, h⟩ | ⟨_, _, _, h⟩ | ⟨_, _, _, h⟩ <;>
    rw [h] at hg
  · exact hg
  · exact hg
  · exact hg
  · exact (List.mem_filter.mp hg).1

theorem processFile_source_keep (o : Oracle) (f : CsvFile) (st : State)
    (g : CsvFile) (hg : g ∈ st.source) (hne : g.name ≠ f.name) :
    g ∈ (processFile o f st).1.source := by
  rcases processFile_split o f st with ⟨_, h⟩ | ⟨_, _, h⟩ | ⟨_, _, _, h⟩ | ⟨_, _, _, h⟩ <;>
    rw [h]
  · exact hg
  · exact hg
  · exact hg
  · exact List.mem_filter.mpr ⟨hg, by simpa using hne⟩

theorem runFiles_source_sub (o : Oracle) (fs : List CsvFile) (st : State) :
    ∀ g ∈ (runFiles o fs st).1.source, g ∈ st.source := by
  induction fs generalizing st with
  | nil => intro g hg; exact hg
  | cons f fs ih =>
    intro g hg
    rw [runFiles] at hg
    cases hp : processFile o f st with
    | mk st1 err =>
      have h1 : (processFile o f st).1 = st1 := by rw [hp]
      cases err with
      | none =>
        rw [hp] at hg
        exact processFile_source_sub o f st g (h1 ▸ ih st1 g hg)
      | some e =>
        rw [hp] at hg
        exact processFile_source_sub o f st g (h1 ▸ hg)

theorem runFiles_source_keepName (o : Oracle) (fs : List CsvFile) (st : State)
    (g : CsvFile) (hg : g ∈ st.source) (hname : ∀ f ∈ fs, g.name ≠ f.name) :
    g ∈ (runFiles o fs st).1.source := by
  induction fs generalizing st with
  | nil => exact hg
  | cons f fs ih =>
    rw [runFiles]
    cases hp : processFile o f st with
    | mk st1 err =>
      have h1 : (processFile o f st).1 = st1 := by rw [hp]
      have hg1 : g ∈ st1.source :=
        h1 ▸ processFile_source_keep o f st g hg (hname f (by simp))
      cases err with
      | none => exact ih st1 hg1 (fun f1 hf1 => hname f1 (by simp [hf1]))
      | some e => exact hg1

theorem runFiles_source_keepStuck (o : Oracle) (fs : List CsvFile) (st : State)
    (g : CsvFile) (hg : g ∈ st.source)
    (hstuck : pyEndsWith g.name ".csv" = false ∨ o.loadFails g.name = true) :
    g ∈ (runFiles o fs st).1.source := by
  induction fs generalizing st with
  | nil => exact hg
  | cons f fs ih =>
    rw [runFiles]
    cases hp : processFile o f st with
    | mk st1 err =>
      have h1 : (processFile o f st).1 = st1 := by rw [hp]
      have hg1 : g ∈ st1.source := by
        by_cases hne : g.name = f.name
        · rcases processFile_split o f st with ⟨hc, h⟩ | ⟨hc, hl, h⟩ | ⟨hc, hl, _, h⟩ | ⟨hc, hl, _, h⟩ <;>
            rw [h] at hp <;> cases hp <;> clear h1
          · exact hg
          · exact hg
          · exact hg
          · rcases hstuck with hs | hs
            · rw [hne] at hs; rw [hs] at hc; cases hc
            · rw [hne] at hs; rw [hs] at hl; cases hl
        · exact h1 ▸ processFile_source_keep o f st g hg hne
      cases err with
      | none => exact ih st1 hg1
      | some e => exact hg1

/-! ## Archive-directory lemmas -/

theorem processFile_archive_mono (o : Oracle) (f : CsvFile) (st : State) :
    ∀ g ∈ st.archive, g ∈ (processFile o f st).1.archive := by
  intro g hg
  rcases processFile_split o f st with ⟨_, h⟩ | ⟨_, _, h⟩ | ⟨_, _, _, h⟩ | ⟨_, _, _, h⟩ <;>
    rw [h]
  · exact hg
  · exact hg
  · exact hg
  · exact List.mem_append_left _ hg

theorem processFile_archive_sub (o : Oracle) (f : CsvFile) (st : State) :
    ∀ g ∈ (processFile o f st).1.archive,
      g ∈ st.archive ∨
        (g = f ∧ pyEndsWith f.name ".csv" = true ∧
          o.loadFails f.name = false ∧ o.moveFails f.name = false) := by
  intro g hg
  rcases processFile_split o f st with ⟨_, h⟩ | ⟨_, _, h⟩ | ⟨_, _, _, h⟩ | ⟨hc, hl, hm, h⟩ <;>
    rw [h] at hg
  · exact Or.inl hg
  · exact Or.inl hg
  · exact Or.inl hg
  · rcases List.mem_append.mp hg with h1 | h1
    · exact Or.inl h1
    · exact Or.inr ⟨List.mem_singleton.mp h1, hc, hl, hm⟩

theorem runFiles_archive_mono (o : Oracle) (fs : List CsvFile) (st : State) :
    ∀ g ∈ st.archive, g ∈ (runFiles o fs st).1.archive := by
  induction fs generalizing st with
  | nil => intro g hg; exact hg
  | cons f fs ih =>
    intro g hg
    rw [runFiles]
    cases hp : processFile o f st with
    | mk st1 err =>
      have h1 : (processFile o f st).1 = st1 := by rw [hp]
      have hg1 : g ∈ st1.archive := h1 ▸ processFile_archive_mono o f st g hg
      cases err with
      | none => exact ih st1 g hg1
      | some e => exact hg1

theorem runFiles_archive_sub (o : Oracle) (fs : List CsvFile) (st : State) :
    ∀ g ∈ (runFiles o fs st).1.archive,
      g ∈ st.archive ∨
        (pyEndsWith g.name ".csv" = true ∧
          o.loadFails g.name = false ∧ o.moveFails g.name = false) := by
  induction fs generalizing st with
  | nil => intro g hg; exact Or.inl hg
  | cons f fs ih =>
    intro g hg
    rw [runFiles] at hg
    cases hp : processFile o f st with
    | mk st1 err =>
      have h1 : (processFile o f st).1 = st1 := by rw [hp]
      have step : g ∈ st1.archive →
          g ∈ st.archive ∨
            (pyEndsWith g.name ".csv" = true ∧
              o.loadFails g.name = false ∧ o.moveFails g.name = false) := by
        intro hg1
        rcases processFile_archive_sub o f st g (h1 ▸ hg1) with h2 | ⟨hgf, hc, hl, hm⟩
        · exact Or.inl h2
        · exact Or.inr ⟨hgf ▸ hc, hgf ▸ hl, hgf ▸ hm⟩
      cases err with
      | none =>
        rw [hp] at hg
        rcases ih st1 g hg with h2 | h2
        · exact step h2
        · exact Or.inr h2
      | some e =>
        rw [hp] at hg
        exact step hg

theorem runFiles_cons_ok (o : Oracle) (f : CsvFile) (fs : List CsvFile)
    (st st1 : State) (h : processFile o f st = (st1, none)) :
    runFiles o (f :: fs) st = runFiles o fs st1 := by
  rw [runFiles, h]

theorem runFiles_cons_err (o : Oracle) (f : CsvFile) (fs : List CsvFile)
    (st st1 : State) (e : Err) (h : processFile o f st = (st1, some e)) :
    runFiles o (f :: fs) st = (st1, some e) := by
  rw [runFiles, h]

theorem runFiles_archive_gain (o : Oracle) (fs : List CsvFile) (st : State)
    (f : CsvFile) (hf : f ∈ fs) (hcsv : pyEndsWith f.name ".csv" = true)
    (hall : ∀ g ∈ fs, o.loadFails g.name = false ∧ o.moveFails g.name = false) :
    f ∈ (runFiles o fs st).1.archive := by
  induction fs generalizing st with
  | nil => cases hf
  | cons h fs ih =>
    rcases List.mem_cons.mp hf with hfh | hftl
    · rw [runFiles_cons_ok o h fs st _
        (processFile_ok o h st (hfh ▸ hcsv) (hall h (by simp)).1 (hall h (by simp)).2)]
      exact runFiles_archive_mono o fs _ f (by simp [hfh])
    · cases hch : pyEndsWith h.name ".csv" with
      | true =>
        rw [runFiles_cons_ok o h fs st _
          (processFile_ok o h st hch (hall h (by simp)).1 (hall h (by simp)).2)]
        exact ih _ hftl (fun g hg => hall g (List.mem_cons_of_mem _ hg))
      | false =>
        rw [runFiles_cons_ok o h fs st _ (processFile_skip o h st hch)]
        exact ih _ hftl (fun g hg => hall g (List.mem_cons_of_mem _ hg))

theorem runFiles_source_gone (o : Oracle) (fs : List CsvFile) (st : State)
    (f : CsvFile) (hf : f ∈ fs) (hcsv : pyEndsWith f.name ".csv" = true)
    (hall : ∀ g ∈ fs, o.loadFails g.name = false ∧ o.moveFails g.name = false) :
    ∀ g ∈ (runFiles o fs st).1.source, g.name ≠ f.name := by
  induction fs generalizing st with
  | nil => cases hf
  | cons h fs ih =>
    intro g hg
    rcases List.mem_cons.mp hf with hfh | hftl
    · rw [runFiles_cons_ok o h fs st _
        (processFile_ok o h st (hfh ▸ hcsv) (hall h (by simp)).1 (hall h (by simp)).2)] at hg
      have hg1 := runFiles_source_sub o fs _ g hg
      simp only [List.mem_filter] at hg1
      rw [hfh]
      simpa using hg1.2
    · cases hch : pyEndsWith h.name ".csv" with
      | true =>
        rw [runFiles_cons_ok o h fs st _
          (processFile_ok o h st hch (hall h (by simp)).1 (hall h (by simp)).2)] at hg
        exact ih _ hftl (fun g1 hg1 => hall g1 (List.mem_cons_of_mem _ hg1)) g hg
      | false =>
        rw [runFiles_cons_ok o h fs st _ (processFile_skip o h st hch)] at hg
        exact ih _ hftl (fun g1 hg1 => hall g1 (List.mem_cons_of_mem _ hg1)) g hg

/-! ## Trace lemmas -/

theorem processFile_trace (o : Oracle) (f : CsvFile) (st : State) :
    ∃ tr, (processFile o f st).1.trace = st.trace ++ tr ∧
      ∀ ev ∈ tr, pyEndsWith f.name ".csv" = true ∧
        (ev = Event.loaded f.name ∨ ev = Event.moved f.name) := by
  rcases processFile_split o f st with ⟨hc, h⟩ | ⟨hc, _, h⟩ | ⟨hc, _, _, h⟩ | ⟨hc, _, _, h⟩ <;>
    rw [h]
  · exact ⟨[], by simp, by simp⟩
  · exact ⟨[], by simp, by simp⟩
  · refine ⟨[Event.loaded f.name], rfl, ?_⟩
    intro ev hev
    simp only [List.mem_singleton] at hev
    exact ⟨hc, Or.inl hev⟩
  · refine ⟨[Event.loaded f.name, Event.moved f.name], rfl, ?_⟩
    intro ev hev
    rcases List.mem_cons.mp hev with h1 | h1
    · exact ⟨hc, Or.inl h1⟩
    · exact ⟨hc, Or.inr (List.mem_singleton.mp h1)⟩

theorem runFiles_trace (o : Oracle) (fs : List CsvFile) (st : State) :
    ∃ tr, (runFiles o fs st).1.trace = st.trace ++ tr ∧
      ∀ ev ∈ tr, ∃ g ∈ fs, pyEndsWith g.name ".csv" = true ∧
        (ev = Event.loaded g.name ∨ ev = Event.moved g.name) := by
  induction fs generalizing st with
  | nil => exact ⟨[], by simp [runFiles], by simp⟩
  | cons f fs ih =>
    obtain ⟨tr1, htr1, hev1⟩ := processFile_trace o f st
    cases hp : processFile o f st with
    | mk st1 err =>
      have h1 : st1.trace = st.trace ++ tr1 := by rw [hp] at htr1; exact htr1
      cases err with
      | none =>
        rw [runFiles_cons_ok o f fs st st1 hp]
        obtain ⟨tr2, htr2, hev2⟩ := ih st1
        refine ⟨tr1 ++ tr2, by rw [htr2, h1, List.append_assoc], ?_⟩
        intro ev hev
        rcases List.mem_append.mp hev with h2 | h2
        · obtain ⟨hc, he⟩ := hev1 ev h2
          exact ⟨f, by simp, hc, he⟩
        · obtain ⟨g, hg, hc, he⟩ := hev2 ev h2
          exact ⟨g, List.mem_cons_of_mem _ hg, hc, he⟩
      | some e =>
        rw [runFiles_cons_err o f fs st st1 e hp]
        refine ⟨tr1, h1, ?_⟩
        intro ev hev
        obtain ⟨hc, he⟩ := hev1 ev hev
        exact ⟨f, by simp, hc, he⟩

/-! ## Invariants for the move-after-load property -/

/-- Every archived file was loaded: its (renamed) rows occur in the staging
table in order, and its load call did not fail. -/
def ArchiveInv (o : Oracle) (st : State) : Prop :=
  ∀ f ∈ st.archive,
    (f.rows.map (rowOf (renameHeader f.header))).Sublist st.table ∧
      o.loadFails f.name = false

/-- Whenever a move has been recorded for a name, a load was recorded for the
same name (at an earlier point of the trace, since traces only grow). -/
def TraceInv (st : State) : Prop :=
  ∀ n, Event.moved n ∈ st.trace → Event.loaded n ∈ st.trace

theorem processFile_archiveInv (o : Oracle) (f : CsvFile) (st : State)
    (h : ArchiveInv o st) : ArchiveInv o (processFile o f st).1 := by
  rcases processFile_split o f st with ⟨_, hp⟩ | ⟨_, _, hp⟩ | ⟨_, hl, _, hp⟩ | ⟨_, hl, _, hp⟩ <;>
    rw [hp]
  · exact h
  · exact h
  · intro g hg
    exact ⟨(h g hg).1.trans (List.sublist_append_left _ _), (h g hg).2⟩
  · intro g hg
    rcases List.mem_append.mp hg with h1 | h1
    · exact ⟨(h g h1).1.trans (List.sublist_append_left _ _), (h g h1).2⟩
    · rw [List.mem_singleton.mp h1]
      exact ⟨List.sublist_append_right _ _, hl⟩

theorem runFiles_archiveInv (o : Oracle) (fs : List CsvFile) (st : State)
    (h : ArchiveInv o st) : ArchiveInv o (runFiles o fs st).1 := by
  induction fs generalizing st with
  | nil => exact h
  | cons f fs ih =>
    cases hp : processFile o f st with
    | mk st1 err =>
      have h1 : ArchiveInv o st1 := by
        have := processFile_archiveInv o f st h
        rw [hp] at this
        exact this
      cases err with
      | none => rw [runFiles_cons_ok o f fs st st1 hp]; exact ih st1 h1
      | some e => rw [runFiles_cons_err o f fs st st1 e hp]; exact h1

theorem processFile_traceInv (o : Oracle) (f : CsvFile) (st : State)
    (h : TraceInv st) : TraceInv (processFile o f st).1 := by
  rcases processFile_split o f st with ⟨_, hp⟩ | ⟨_, _, hp⟩ | ⟨_, _, _, hp⟩ | ⟨_, _, _, hp⟩ <;>
    rw [hp]
  · exact h
  · exact h
  · intro n hn
    simp only [List.mem_append, List.mem_singleton] at hn
    rcases hn with hn | hn
    · exact List.mem_append_left _ (h n hn)
    · cases hn
  · intro n hn
    simp only [List.mem_append, List.mem_cons, List.not_mem_nil, or_false] at hn
    rcases hn with hn | hn | hn
    · exact List.mem_append_left _ (h n hn)
    · cases hn
    · injection hn with hn1
      subst hn1
      exact List.mem_append_right _ (by simp)

theorem runFiles_traceInv (o : Oracle) (fs : List CsvFile) (st : State)
    (h : TraceInv st) : TraceInv (runFiles o fs st).1 := by
  induction fs generalizing st with
  | nil => exact h
  | cons f fs ih =>
    cases hp : processFile o f st with
    | mk st1 err =>
      have h1 : TraceInv st1 := by
        have := processFile_traceInv o f st h
        rw [hp] at this
        exact this
      cases err with
      | none => rw [runFiles_cons_ok o f fs st st1 hp]; exact ih st1 h1
      | some e => rw [runFiles_cons_err o f fs st st1 e hp]; exact h1

/-- A product whose second component is known is the pair of its first
component and that value. -/
theorem prodEqOfSnd {α β : Type} (p : α × β) (b : β) (h : p.2 = b) :
    p = (p.1, b) := by
  cases p
  cases h
  rfl

/-- C8: loading a file appends its rows at the end of the staging table —
every row already present keeps its position and value — and each appended
cell carries the file's text value unchanged (no coercion: the row's second
components are exactly the CSV cells). -/
theorem C8_append_not_replace (o : Oracle) (st : State) (f : CsvFile)
    (hcsv : pyEndsWith f.name ".csv" = true) (hload : o.loadFails f.name = false) :
    (processFile o f st).1.table =
      st.table ++ f.rows.map (rowOf (renameHeader f.header)) ∧
    (∀ i, i < st.table.length → (processFile o f st).1.table[i]? = st.table[i]?) ∧
    (∀ r ∈ f.rows, r.length = f.header.length →
      (rowOf (renameHeader f.header) r).map Prod.snd = r) := by
  have htab : (processFile o f st).1.table =
      st.table ++ f.rows.map (rowOf (renameHeader f.header)) := by
    by_cases hm : o.moveFails f.name <;> simp [processFile, hcsv, hload, hm]
  refine ⟨htab, ?_, ?_⟩
  · intro i hi
    rw [htab, List.getElem?_append_left hi]
  · intro r hr hlen
    have hlen2 : (renameHeader f.header).length = f.header.length := by
      simp [renameHeader_eq]
    rw [rowOf, List.map_snd_zip]
    omega

/-- Witness for C8 at the sample file. -/
theorem C8_append_not_replace_witness :
    (processFile oQuiet fIdCsv st0ex).1.table =
      st0ex.table ++ fIdCsv.rows.map (rowOf (renameHeader fIdCsv.header)) ∧
    (∀ i, i < st0ex.table.length →
      (processFile oQuiet fIdCsv st0ex).1.table[i]? = st0ex.table[i]?) ∧
    (∀ r ∈ fIdCsv.rows, r.length = fIdCsv.header.length →
      (rowOf (renameHeader fIdCsv.header) r).map Prod.snd = r) :=
  C8_append_not_replace oQuiet st0ex fIdCsv (by decide) rfl

/-- A sample header-only CSV file: a header, zero data rows. -/
def fHdrCsv : CsvFile := ⟨"h.csv", ["ID", "val"], []⟩

/-- C10: a CSV file with a header row and zero data rows is processed
successfully: the append adds zero rows (the staging table is unchanged) and
the file is still moved to the archive directory. -/
theorem C10_header_only_file (o : Oracle) (st : State) (f : CsvFile)
    (hcsv : pyEndsWith f.name ".csv" = true) (hrows : f.rows = [])
    (hload : o.loadFails f.name = false) (hmove : o.moveFails f.name = false) :
    processFile o f st =
      ({ source := st.source.filter (fun g => g.name ≠ f.name),
         archive := st.archive ++ [f],
         table := st.table,
         trace := st.trace ++ [Event.loaded f.name, Event.moved f.name] }, none) ∧
    (processFile o f st).2 = none ∧
    (processFile o f st).1.table = st.table ∧
    f ∈ (processFile o f st).1.archive := by
  have h := processFile_ok o f st hcsv hload hmove
  rw [hrows] at h
  simp only [List.map_nil, List.append_nil] at h
  refine ⟨h, by rw [h], by rw [h], by rw [h]; simp⟩

/-- Witness for C10 at the sample header-only file. -/
theorem C10_header_only_file_witness :
    processFile oQuiet fHdrCsv st0ex =
      ({ source := st0ex.source.filter (fun g => g.name ≠ fHdrCsv.name),
         archive := st0ex.archive ++ [fHdrCsv],
         table := st0ex.table,
         trace := st0ex.trace ++
           [Event.loaded fHdrCsv.name, Event.moved fHdrCsv.name] }, none) ∧
    (processFile oQuiet fHdrCsv st0ex).2 = none ∧
    (processFile oQuiet fHdrCsv st0ex).1.table = st0ex.table ∧
    fHdrCsv ∈ (processFile oQuiet fHdrCsv st0ex).1.archive :=
  C10_header_only_file oQuiet st0ex fHdrCsv (by decide) rfl rfl rfl

/-- A sample non-CSV directory entry. -/
def fTxt : CsvFile := ⟨"b.txt", [], []⟩

/-- A sample initial state whose source directory holds no `.csv` entry. -/
def stTxt : State := ⟨[fTxt], [], [], []⟩

/-- C9: the Sentinel Cleaner runs unconditionally after the file loop: when
the source directory holds no `.csv` entry, nothing is loaded or moved, yet
the run still executes the cleanup statement of every column of `fields`
(one `cleaned` trace event per column, table rewritten by `cleanCols`). -/
theorem C9_cleanup_unconditional (o : Oracle) (st0 : State)
    (hnocsv : ∀ f ∈ st0.source, pyEndsWith f.name ".csv" = false)
    (hupd : ∀ c, o.updateFails c = false) :
    runAll o st0 =
      ({ st0 with table := cleanCols fields st0.table,
                  trace := st0.trace ++ fields.map Event.cleaned }, none) := by
  unfold runAll
  rw [runFiles_skip_all o st0.source st0 hnocsv]
  exact runCleanup_ok o fields st0 (fun c _ => hupd c)

/-- Witness for C9 at a source directory holding only `b.txt`. -/
theorem C9_cleanup_unconditional_witness :
    runAll oQuiet stTxt =
      ({ stTxt with table := cleanCols fields stTxt.table,
                    trace := stTxt.trace ++ fields.map Event.cleaned }, none) :=
  C9_cleanup_unconditional oQuiet stTxt (by decide) (fun c => rfl)

/-- C2: after a run in which every load and every move succeeds, each `.csv`
file of the source directory is in the archive directory and absent from the
source directory, while each non-`.csv` entry stays in the source directory,
never enters the archive, and generates no load or move event. -/
theorem C2_all_success_moves_csv (o : Oracle) (st0 : State)
    (hload : ∀ n, o.loadFails n = false) (hmove : ∀ n, o.moveFails n = false)
    (harch : st0.archive = []) (htr : st0.trace = []) :
    ∀ f ∈ st0.source,
      (pyEndsWith f.name ".csv" = true →
        f ∈ (runAll o st0).1.archive ∧ f ∉ (runAll o st0).1.source) ∧
      (pyEndsWith f.name ".csv" = false →
        f ∈ (runAll o st0).1.source ∧ f ∉ (runAll o st0).1.archive ∧
        Event.loaded f.name ∉ (runAll o st0).1.trace ∧
        Event.moved f.name ∉ (runAll o st0).1.trace) := by
  have hall : ∀ g ∈ st0.source, o.loadFails g.name = false ∧ o.moveFails g.name = false :=
    fun g _ => ⟨hload g.name, hmove g.name⟩
  have hrun : runFiles o st0.source st0 = ((runFiles o st0.source st0).1, none) :=
    prodEqOfSnd _ _ (runFiles_ok o st0.source st0 hall)
  have hAll : runAll o st0 = runCleanup o fields (runFiles o st0.source st0).1 := by
    unfold runAll
    rw [hrun]
  obtain ⟨hcs, hca, trc, hctr, hcev⟩ := runCleanup_frame o fields (runFiles o st0.source st0).1
  obtain ⟨tr1, htr1, hev1⟩ := runFiles_trace o st0.source st0
  intro f hf
  constructor
  · intro hcsv
    constructor
    · rw [hAll, hca]
      exact runFiles_archive_gain o st0.source st0 f hf hcsv hall
    · intro hmem
      rw [hAll, hcs] at hmem
      exact runFiles_source_gone o st0.source st0 f hf hcsv hall f hmem rfl
  · intro hncsv
    have htrace_no : ∀ ev ∈ (runFiles o st0.source st0).1.trace,
        ev ≠ Event.loaded f.name ∧ ev ≠ Event.moved f.name := by
      intro ev hev
      rw [htr1, htr, List.nil_append] at hev
      obtain ⟨g, _, hcg, hevg⟩ := hev1 ev hev
      constructor
      · intro he
        rcases hevg with h1 | h1
        · rw [he] at h1
          injection h1 with h1
          rw [h1, hcg] at hncsv
          cases hncsv
        · rw [he] at h1
          cases h1
      · intro he
        rcases hevg with h1 | h1
        · rw [he] at h1
          cases h1
        · rw [he] at h1
          injection h1 with h1
          rw [h1, hcg] at hncsv
          cases hncsv
    refine ⟨?_, ?_, ?_, ?_⟩
    · rw [hAll, hcs]
      exact runFiles_source_keepStuck o st0.source st0 f hf (Or.inl hncsv)
    · intro hmem
      rw [hAll, hca] at hmem
      rcases runFiles_archive_sub o st0.source st0 f hmem with h1 | ⟨h1, _, _⟩
      · rw [harch] at h1
        cases h1
      · rw [hncsv] at h1
        cases h1
    · intro hmem
      rw [hAll, hctr] at hmem
      rcases List.mem_append.mp hmem with h1 | h1
      · exact (htrace_no _ h1).1 rfl
      · obtain ⟨c, _, hc⟩ := hcev _ h1
        cases hc
    · intro hmem
      rw [hAll, hctr] at hmem
      rcases List.mem_append.mp hmem with h1 | h1
      · exact (htrace_no _ h1).2 rfl
      · obtain ⟨c, _, hc⟩ := hcev _ h1
        cases hc

/-- A sample two-entry source directory: one `.csv` file, one `.txt` file. -/
def stC2 : State := ⟨[fIdCsv, fTxt], [], [], []⟩

/-- Witness for C2: after the run on `stC2`, `a.csv` is archived and gone
from the source directory while `b.txt` stays behind untouched. -/
theorem C2_all_success_moves_csv_witness :
    fIdCsv ∈ (runAll oQuiet stC2).1.archive ∧
    fIdCsv ∉ (runAll oQuiet stC2).1.source ∧
    fTxt ∈ (runAll oQuiet stC2).1.source ∧
    fTxt ∉ (runAll oQuiet stC2).1.archive := by
  have h := C2_all_success_moves_csv oQuiet stC2 (fun n => rfl) (fun n => rfl) rfl rfl
  have h1 := (h fIdCsv (by decide)).1 (by decide)
  have h2 := (h fTxt (by decide)).2 (by decide)
  exact ⟨h1.1, h1.2, h2.1, h2.2.1⟩

/-- C6: the Archiver runs only after the Loader succeeded for that file. In
every state reachable during the file loop (after any prefix of the directory
listing), each archived file's renamed rows already occur in the staging
table and its load call did not fail, and every recorded move event is
preceded by a load event for the same name; moreover a `.csv` file whose
load call fails stays in the source directory and never reaches the archive. -/
theorem C6_move_only_after_load (o : Oracle) (st0 : State)
    (harch : st0.archive = []) (htr : st0.trace = []) :
    (∀ k, ArchiveInv o ((runFiles o (st0.source.take k) st0).1) ∧
      TraceInv ((runFiles o (st0.source.take k) st0).1)) ∧
    (∀ f ∈ st0.source, pyEndsWith f.name ".csv" = true →
      o.loadFails f.name = true →
      f ∈ (runAll o st0).1.source ∧ f ∉ (runAll o st0).1.archive) := by
  have hai : ArchiveInv o st0 := by
    intro f hf
    rw [harch] at hf
    cases hf
  have hti : TraceInv st0 := by
    intro n hn
    rw [htr] at hn
    cases hn
  refine ⟨fun k => ⟨runFiles_archiveInv o _ st0 hai, runFiles_traceInv o _ st0 hti⟩, ?_⟩
  intro f hf hcsv hlf
  cases hp : runFiles o st0.source st0 with
  | mk st1 err =>
    have hsrc1 : f ∈ st1.source := by
      have h := runFiles_source_keepStuck o st0.source st0 f hf (Or.inr hlf)
      rw [hp] at h
      exact h
    have harc1 : f ∉ st1.archive := by
      intro hmem
      have h := runFiles_archive_sub o st0.source st0 f (by rw [hp]; exact hmem)
      rcases h with h1 | ⟨_, h2, _⟩
      · rw [harch] at h1
        cases h1
      · rw [hlf] at h2
        cases h2
    cases err with
    | none =>
      have hAll : runAll o st0 = runCleanup o fields st1 := by
        unfold runAll
        rw [hp]
      obtain ⟨hcs, hca, _⟩ := runCleanup_frame o fields st1
      rw [hAll, hcs, hca]
      exact ⟨hsrc1, harc1⟩
    | some e =>
      have hAll : runAll o st0 = (st1, some e) := by
        unfold runAll
        rw [hp]
      rw [hAll]
      exact ⟨hsrc1, harc1⟩

/-- An oracle under which only the load of `b.csv` raises. -/
def oLoadB : Oracle := ⟨fun n => n == "b.csv", fun _ => false, fun _ => false⟩

/-- A sample CSV file whose load will fail under `oLoadB`. -/
def fBCsv : CsvFile := ⟨"b.csv", ["ID"], [[some "9"]]⟩

/-- A sample initial state holding only `b.csv`. -/
def stB : State := ⟨[fBCsv], [], [], []⟩

/-- Witness for C6: under `oLoadB`, `b.csv` stays in the source directory and
never reaches the archive, and the invariants hold on the one-file prefix. -/
theorem C6_move_only_after_load_witness :
    (ArchiveInv oLoadB ((runFiles oLoadB (stB.source.take 1) stB).1) ∧
      TraceInv ((runFiles oLoadB (stB.source.take 1) stB).1)) ∧
    (fBCsv ∈ (runAll oLoadB stB).1.source ∧
      fBCsv ∉ (runAll oLoadB stB).1.archive) :=
  ⟨(C6_move_only_after_load oLoadB stB rfl rfl).1 1,
    (C6_move_only_after_load oLoadB stB rfl rfl).2 fBCsv (by decide) (by decide) rfl⟩

/-- C7: no error is caught anywhere. If the loop body for file `f` raises
after the prefix `fs1` of the listing was processed without error, the whole
run returns at that point with that error: the cleanup loop never runs (no
`cleaned` event is ever traced), and every later file `g` whose name is fresh
is untouched — still in the source directory, with no load or move event.
Likewise a failing `UPDATE` statement aborts the cleanup loop on the spot,
leaving the state as it was and the remaining statements unexecuted. -/
theorem C7_error_aborts_run (o : Oracle) (st0 : State) (htr : st0.trace = [])
    (fs1 : List CsvFile) (f : CsvFile) (fs2 : List CsvFile)
    (hsrc : st0.source = fs1 ++ f :: fs2)
    (st1 : State) (e : Err) (hpre : runFiles o fs1 st0 = (st1, none))
    (hfail : (processFile o f st1).2 = some e) :
    runAll o st0 = ((processFile o f st1).1, some e) ∧
    (∀ c, Event.cleaned c ∉ ((processFile o f st1).1).trace) ∧
    (∀ g ∈ fs2, (∀ f1 ∈ fs1, g.name ≠ f1.name) → g.name ≠ f.name →
      g ∈ ((processFile o f st1).1).source ∧
      Event.loaded g.name ∉ ((processFile o f st1).1).trace ∧
      Event.moved g.name ∉ ((processFile o f st1).1).trace) ∧
    (∀ c cs st2, o.updateFails c = true →
      runCleanup o (c :: cs) st2 = (st2, some (Err.updateError c))) := by
  have hpf : processFile o f st1 = ((processFile o f st1).1, some e) :=
    prodEqOfSnd _ _ hfail
  have hfiles : runFiles o st0.source st0 = ((processFile o f st1).1, some e) := by
    rw [hsrc, runFiles_append o fs1 (f :: fs2) st0, hpre]
    show runFiles o (f :: fs2) st1 = _
    exact runFiles_cons_err o f fs2 st1 _ e hpf
  obtain ⟨tr1, htr1, hev1⟩ := runFiles_trace o fs1 st0
  have htr1s : st1.trace = tr1 := by
    rw [hpre] at htr1
    rw [htr] at htr1
    simpa using htr1
  obtain ⟨tr2, htr2, hev2⟩ := processFile_trace o f st1
  have htrf : ((processFile o f st1).1).trace = tr1 ++ tr2 := by
    rw [htr2, htr1s]
  refine ⟨?_, ?_, ?_, ?_⟩
  · unfold runAll
    rw [hfiles]
  · intro c hc
    rw [htrf] at hc
    rcases List.mem_append.mp hc with h1 | h1
    · obtain ⟨g, _, _, he⟩ := hev1 _ h1
      rcases he with he | he <;> cases he
    · obtain ⟨_, he⟩ := hev2 _ h1
      rcases he with he | he <;> cases he
  · intro g hg hn1 hnf
    have hg0 : g ∈ st0.source := by
      rw [hsrc]
      exact List.mem_append_right _ (List.mem_cons_of_mem _ hg)
    have hg1 : g ∈ st1.source := by
      have h := runFiles_source_keepName o fs1 st0 g hg0 hn1
      rw [hpre] at h
      exact h
    refine ⟨processFile_source_keep o f st1 g hg1 hnf, ?_, ?_⟩
    · intro hmem
      rw [htrf] at hmem
      rcases List.mem_append.mp hmem with h1 | h1
      · obtain ⟨f1, hf1, _, he⟩ := hev1 _ h1
        rcases he with he | he
        · injection he with he
          exact hn1 f1 hf1 he
        · cases he
      · obtain ⟨_, he⟩ := hev2 _ h1
        rcases he with he | he
        · injection he with he
          exact hnf he
        · cases he
    · intro hmem
      rw [htrf] at hmem
      rcases List.mem_append.mp hmem with h1 | h1
      · obtain ⟨f1, hf1, _, he⟩ := hev1 _ h1
        rcases he with he | he
        · cases he
        · injection he with he
          exact hn1 f1 hf1 he
      · obtain ⟨_, he⟩ := hev2 _ h1
        rcases he with he | he
        · cases he
        · injection he with he
          exact hnf he
  · intro c cs st2 hc
    exact runCleanup_failHead o c cs st2 hc

/-- A later CSV file the aborted run never reaches. -/
def fCCsv : CsvFile := ⟨"c.csv", ["ID"], [[some "7"]]⟩

/-- A sample three-entry source directory: `a.csv` loads fine, `b.csv` raises
on load, `c.csv` is never reached. -/
def stC7 : State := ⟨[fIdCsv, fBCsv, fCCsv], [], [], []⟩

/-- The state after the successful first iteration on `a.csv`. -/
def stC7mid : State :=
  ⟨[fBCsv, fCCsv], [fIdCsv], [[("Column_0", some "1"), ("val", some "2")]],
    [Event.loaded "a.csv", Event.moved "a.csv"]⟩

/-- Witness for C7: the run on `stC7` aborts at `b.csv` with its load error,
`c.csv` is still in the source directory and was never loaded. -/
theorem C7_error_aborts_run_witness :
    runAll oLoadB stC7 =
      ((processFile oLoadB fBCsv stC7mid).1, some (Err.loadError "b.csv")) ∧
    fCCsv ∈ ((processFile oLoadB fBCsv stC7mid).1).source ∧
    Event.loaded fCCsv.name ∉ ((processFile oLoadB fBCsv stC7mid).1).trace := by
  have h := C7_error_aborts_run oLoadB stC7 rfl [fIdCsv] fBCsv [fCCsv] rfl stC7mid
    (Err.loadError "b.csv") (by decide) (by decide)
  have h3 := h.2.2.1 fCCsv (by decide) (by decide) (by decide)
  exact ⟨h.1, h3.1, h3.2.1⟩
